import Mathlib

/-!
Verification of the crawling / extraction engine and content-lifecycle
management of the web-scraper-chatbot backend (`backend/api.py`).

The Python source is shallowly embedded: the recursive page scraper
`_scrape_with_browser_sync.scrape_page` becomes a fuel-indexed mutual
recursion threading an explicit `CrawlState`; the Qdrant client used by
`remove_url` and `clear_knowledge_base` becomes an abstract client record
`QClient` together with a concrete instance `qdrantClient` modelling the
store's id-ordered scroll cursor; the paginated while-loops become
fuel-indexed recursions returning `none` when the fuel runs out (so that
non-termination of the source loop is expressible).  Endpoint handlers
become pure functions from explicit registry/store state to outcome and
new state.
-/

namespace WSC

/-! ## String utilities (Python `str.strip`, `re.sub(r'\s+', ' ', ·)`) -/

/-- ASCII whitespace as matched by Python's `\s` and stripped by `str.strip`. -/
def isPySpace (c : Char) : Bool :=
  c = ' ' || c = '\t' || c = '\n' || c = '\r' || c = '\x0b' || c = '\x0c'

/-- One pass of `re.sub(r'\s+', ' ', s)`: every run of whitespace becomes a
single space.  The boolean records whether the previous character was
part of a whitespace run. -/
def collapseAux : Bool → List Char → List Char
  | _, [] => []
  | prevSpace, c :: rest =>
    if isPySpace c then
      if prevSpace then collapseAux true rest
      else ' ' :: collapseAux true rest
    else c :: collapseAux false rest

/-- Python `str.strip()` on a character list. -/
def pyStripChars (l : List Char) : List Char :=
  ((l.dropWhile isPySpace).reverse.dropWhile isPySpace).reverse

/-- `re.sub(r'\s+', ' ', text_content).strip()` (api.py line 148). -/
def cleanText (s : String) : String :=
  String.mk (pyStripChars (collapseAux false s.toList))

/-- Python `str.strip()` on a string. -/
def pyStripStr (s : String) : String :=
  String.mk (pyStripChars s.toList)

/-! ## `urllib.parse.urlparse`: the `scheme` and `netloc` fields

Only the two fields the source reads are modelled, for URL shapes the code
actually parses (everything it parses either contains `"://"` or yields an
empty scheme/netloc, exactly as `urlparse` does). -/

/-- Python `str.startswith` (kernel-reducible implementation). -/
def pyStartsWith (s pre : String) : Bool :=
  pre.toList.isPrefixOf s.toList

/-- Split a character list at the first occurrence of `"://"`:
`some (before, after)`, or `none` when the separator is absent. -/
def splitSchemeAux : List Char → Option (List Char × List Char)
  | [] => none
  | c :: rest =>
    if [':', '/', '/'].isPrefixOf (c :: rest) then some ([], (c :: rest).drop 3)
    else (splitSchemeAux rest).map (fun ab => (c :: ab.1, ab.2))

/-- Split a URL at the first `"://"`: `some (scheme, rest)`, or `none` when
the separator is absent. -/
def urlSchemeRest (u : String) : Option (String × String) :=
  (splitSchemeAux u.toList).map (fun ab => (String.mk ab.1, String.mk ab.2))

/-- `urlparse(u).scheme` (empty when no `"://"` occurs). -/
def urlScheme (u : String) : String :=
  match urlSchemeRest u with
  | none => ""
  | some (s, _) => s

/-- `urlparse(u).netloc` (empty when no `"://"` occurs). -/
def urlNetloc (u : String) : String :=
  match urlSchemeRest u with
  | none => ""
  | some (_, rest) => String.mk (rest.toList.takeWhile (fun c => c != '/' && c != '?' && c != '#'))

/-! ## The crawler (`_scrape_with_browser_sync`, api.py lines 104-193) -/

/-- What fetching and parsing one page yields: the text that
`soup.get_text(separator=' ', strip=True)` produces, the `<title>` tag's
text when the tag exists, and the `href` values of all `<a href=...>`
elements in document order.  A web is a function `String → Option Page`;
`none` models a fetch/navigation error (`page.goto` raising). -/
structure Page where
  rawText : String
  title : Option String
  hrefs : List String
deriving DecidableEq

/-- One entry of the `documents` list built by the scraper
(api.py lines 155-164): page title (defaulted to the URL), cleaned text,
the page's own URL, and the crawl depth recorded in `meta_data`. -/
structure CrawlDoc where
  name : String
  content : String
  url : String
  depth : Nat
deriving DecidableEq

/-- The mutable state the Python closure threads: the accumulated
`documents` list, the `visited_urls` set (as a list, membership is all the
code uses), and — instrumentation for the fetch-count properties — the
list of URLs for which a fetch (`page.goto`) was attempted, in order. -/
structure CrawlState where
  documents : List CrawlDoc
  visited : List String
  fetched : List String
deriving DecidableEq

/-- Href resolution inside the link loop (api.py lines 171-178): an href
starting with `http` is kept as is, one starting with `/` is resolved
against the page URL's scheme and netloc, anything else is skipped
(`continue`). -/
def resolveHref (pageUrl href : String) : Option String :=
  if pyStartsWith href "http" then some href
  else if pyStartsWith href "/" then
    some (urlScheme pageUrl ++ "://" ++ urlNetloc pageUrl ++ href)
  else none

/-- The `for link in links[:max_links]` loop (api.py lines 170-182),
parametrized by the recursive scrape call `rec` (which the loop invokes
at `depth + 1`): resolve each href and recurse only when the resolved
URL's netloc equals the page's netloc. -/
def followLinks (rec : String → Nat → CrawlState → CrawlState) :
    List String → String → Nat → CrawlState → CrawlState
  | [], _, _, st => st
  | href :: rest, pageUrl, depth, st =>
    let st' : CrawlState :=
      match resolveHref pageUrl href with
      | none => st
      | some absolute =>
        if urlNetloc absolute = urlNetloc pageUrl then rec absolute (depth + 1) st
        else st
    followLinks rec rest pageUrl depth st'

/-- `scrape_page(page_url, depth)` (api.py lines 116-187).  `fuel` is the
remaining recursion budget; the caller passes `maxDepth + 1 - depth`, so
`fuel = 0` coincides exactly with the `depth > max_depth` guard and the
extra clause changes nothing. -/
def scrapePage (web : String → Option Page) (maxLinks maxDepth : Nat) :
    Nat → String → Nat → CrawlState → CrawlState
  | 0, _, _, st => st
  | fuel + 1, pageUrl, depth, st =>
    if depth > maxDepth ∨ pageUrl ∈ st.visited then st
    else
      let st1 : CrawlState := { st with visited := pageUrl :: st.visited }
      match web pageUrl with
      | none => { st1 with fetched := st1.fetched ++ [pageUrl] }
      | some pg =>
        let st2 : CrawlState := { st1 with fetched := st1.fetched ++ [pageUrl] }
        let text := cleanText pg.rawText
        let st3 : CrawlState :=
          if text ≠ "" ∧ text.length > 50 then
            { st2 with documents := st2.documents ++
                [{ name := pg.title.getD pageUrl, content := text,
                   url := pageUrl, depth := depth }] }
          else st2
        if depth < maxDepth ∧ st3.documents.length < maxLinks * 2 then
          followLinks (scrapePage web maxLinks maxDepth fuel) (pg.hrefs.take maxLinks)
            pageUrl depth st3
        else st3

/-- `_scrape_with_browser_sync(url, max_links, max_depth)`: run
`scrape_page(url, depth=0)` from a fresh state.  The initial fuel
`maxDepth + 1` realises the `depth > max_depth` cutoff. -/
def scrapeWithBrowser (web : String → Option Page) (url : String)
    (maxLinks maxDepth : Nat) : CrawlState :=
  scrapePage web maxLinks maxDepth (maxDepth + 1) url 0 ⟨[], [], []⟩

/-! ## The vector store (Qdrant) and its client

`remove_url` and `clear_knowledge_base` talk to the store only through
`client.scroll(collection, limit, offset, ...)` and
`client.delete(collection, points_selector)`. -/

/-- One stored record's payload, restricted to the fields the source
reads: a possible top-level `url` payload field and the `url` entry of a
possible `meta_data` dict (`none` models an absent key). -/
structure Point where
  id : Nat
  urlField : Option String
  metaUrl : Option String
deriving DecidableEq

/-- `payload.get("url") or payload.get("meta_data", {}).get("url")`
(api.py line 478), with Python truthiness: an empty-string `url` field
falls through to the metadata url. -/
def pointUrl (p : Point) : Option String :=
  match p.urlField with
  | some u => if u = "" then p.metaUrl else some u
  | none => p.metaUrl

/-- `point_url == url` (api.py line 479). -/
def matchP (url : String) (p : Point) : Bool :=
  decide (pointUrl p = some url)

/-- Whether a record is at or past the scroll offset (the Qdrant
continuation cursor is a point id, pages resume at it inclusively). -/
def eligB (o : Option Nat) (p : Point) : Bool :=
  match o with
  | none => true
  | some n => decide (n ≤ p.id)

/-- The records a scroll starting at offset `o` still has to serve. -/
def elig (o : Option Nat) (s : List Point) : List Point :=
  s.filter (eligB o)

/-- Modelled from the spec: the store's
`scroll(collection, limit, cursor) → (records, nextCursor|null)` external
interface (spec §6).  For a collection whose points are listed in
ascending id order, a scroll page holds the first `limit` records at or
past the cursor, and the continuation cursor is the id of the next
record, `null` when the page exhausted the collection. -/
def qdrantScroll (limit : Nat) (s : List Point) (o : Option Nat) :
    List Point × Option Nat :=
  ((elig o s).take limit, ((elig o s).drop limit).head?.map (·.id))

/-- The two store operations the deletion/clear code performs, over an
abstract store state `σ` and cursor type `κ`; `Except.error` models the
client raising. -/
structure QClient (σ κ : Type) where
  scroll : σ → Option κ → Except String (List Point × Option κ)
  del : σ → List Nat → Except String σ

/-- Modelled from the spec: the concrete store client (spec §6), state
`none` standing for a collection that does not exist — scrolling or
deleting it raises, as the Qdrant client used by the code does — and
`some pts` for an existing collection holding `pts` in ascending id
order.  `delete` removes the selected ids. -/
def qdrantClient (limit : Nat) : QClient (Option (List Point)) Nat where
  scroll := fun s o =>
    match s with
    | none => .error "collection does not exist"
    | some pts => .ok (qdrantScroll limit pts o)
  del := fun s ids =>
    match s with
    | none => .error "collection does not exist"
    | some pts => .ok (some (pts.filter (fun p => decide (p.id ∉ ids))))

/-- The `while True` scan-and-delete loop of `remove_url`
(api.py lines 460-492): scroll a page, stop on an empty page, collect the
ids of records whose url matches, delete them when there are any, add
their number to `deleted_count`, continue at the next cursor, stop when
it is `null`.  `fuel` bounds the number of iterations: `none` means the
fuel ran out (the Python loop would still be running); `Except.error`
models a store operation raising (carrying the store state at that
point); the success value is the final store state, `deleted_count`, and
— instrumentation for the pagination properties — the list of all
records examined by the `for point in points` filter, in order. -/
def removeLoop {σ κ : Type} (c : QClient σ κ) (url : String) :
    Nat → σ → Option κ → Nat → List Point →
    Option (Except (String × σ) (σ × Nat × List Point))
  | 0, _, _, _, _ => none
  | fuel + 1, s, offset, count, visited =>
    match c.scroll s offset with
    | .error e => some (.error (e, s))
    | .ok (points, next) =>
      if points.isEmpty then some (.ok (s, count, visited))
      else
        let visited' := visited ++ points
        let ids := (points.filter (matchP url)).map (·.id)
        let step : Except (String × σ) (σ × Nat) :=
          if ids.isEmpty then .ok (s, count)
          else
            match c.del s ids with
            | .error e => .error (e, s)
            | .ok s' => .ok (s', count + ids.length)
        match step with
        | .error es => some (.error es)
        | .ok (s', count') =>
          match next with
          | none => some (.ok (s', count', visited'))
          | some _ => removeLoop c url fuel s' next count' visited'

/-- The `while True` id-collection loop of `clear_knowledge_base`
(api.py lines 527-543): scroll a page, stop on an empty page, append the
page's ids to `all_point_ids`, continue at the next cursor, stop when it
is `null`.  Same fuel/error conventions as `removeLoop`. -/
def clearLoop {σ κ : Type} (c : QClient σ κ) :
    Nat → σ → Option κ → List Nat →
    Option (Except (String × σ) (σ × List Nat))
  | 0, _, _, _ => none
  | fuel + 1, s, offset, acc =>
    match c.scroll s offset with
    | .error e => some (.error (e, s))
    | .ok (points, next) =>
      if points.isEmpty then some (.ok (s, acc))
      else
        let acc' := acc ++ points.map (·.id)
        match next with
        | none => some (.ok (s, acc'))
        | some _ => clearLoop c fuel s next acc'

/-! ## Registry state and endpoint handlers -/

/-- The process-wide registry: the `loaded_urls` list and the
`knowledge_loaded` flag (api.py lines 49, 52). -/
structure Registry where
  loadedUrls : List String
  knowledgeLoaded : Bool
deriving DecidableEq

/-- Outcome of `POST /initialize`. -/
inductive InitResult where
  | ok (documentCount : Nat) (method : String) (loadedUrls : List String)
  | httpError (code : Nat) (detail : String)
deriving DecidableEq

/-- Result and post-state of `initialize_knowledge`, plus instrumentation
recording whether the fallback reader's result was consulted. -/
structure InitOut where
  res : InitResult
  reg : Registry
  store : List Point
  triedFallback : Bool
deriving DecidableEq

/-- The 400 detail of api.py line 326. -/
def noContentDetail : String :=
  "No content could be extracted from the URL. The site may require authentication or be inaccessible."

/-- Modelled from the spec: the knowledge-store ingestion behind
`agent.knowledge.add_content_async` (spec §4.5: one `KnowledgeRecord` per
`Document`, ids store-assigned, `sourceUrl` carried into record
metadata).  The call site (api.py lines 340-351) passes, per document,
metadata whose `url` entry is the document's own page URL, and no
top-level url; ids are modelled as assigned sequentially from
`nextId`. -/
def addRecords (nextId : Nat) : List CrawlDoc → List Point
  | [] => []
  | d :: ds => { id := nextId, urlField := none, metaUrl := some d.url } :: addRecords (nextId + 1) ds

/-- `initialize_knowledge` (api.py lines 269-375).  The crawler's and the
fallback reader's outcomes enter as `Except` values (`error` models the
call raising).  Mirrors: URL validation, crawler-first selection, the
fallback conversion that stamps every fallback document with the seed URL
(line 316), the `No content could be extracted` 400 when both yield
nothing, ingestion of each document with its own url in metadata, setting
`knowledge_loaded`, and duplicate-free appending to `loaded_urls`. -/
def initializeKnowledge (reg : Registry) (store : List Point) (nextId : Nat)
    (url0 : String) (browserResult : Except Unit (List CrawlDoc))
    (fallbackResult : Except Unit (List CrawlDoc)) : InitOut :=
  if pyStripStr url0 = "" then
    ⟨.httpError 400 "URL cannot be empty", reg, store, false⟩
  else
    let url := pyStripStr url0
    if ¬ (pyStartsWith url "http://" ∨ pyStartsWith url "https://") then
      ⟨.httpError 400 "URL must start with http:// or https://", reg, store, false⟩
    else
      let browserDocs : List CrawlDoc :=
        match browserResult with
        | .ok ds => ds
        | .error _ => []
      let useBrowser := ¬ browserDocs.isEmpty
      let docs : List CrawlDoc :=
        if browserDocs.isEmpty then
          match fallbackResult with
          | .ok fs => fs.map (fun d => { name := d.name, content := d.content, url := url, depth := d.depth })
          | .error _ => []
        else browserDocs
      if docs.isEmpty then
        ⟨.httpError 400 noContentDetail, reg, store, browserDocs.isEmpty⟩
      else
        let reg' : Registry :=
          { loadedUrls :=
              if url ∈ reg.loadedUrls then reg.loadedUrls else reg.loadedUrls ++ [url],
            knowledgeLoaded := true }
        ⟨.ok docs.length (if useBrowser then "browser" else "regular") reg'.loadedUrls,
         reg', store ++ addRecords nextId docs, browserDocs.isEmpty⟩

/-- Outcome of `POST /remove-url`. -/
inductive RemoveResult where
  | ok (deletedCount : Nat) (remainingUrls : List String)
  | httpError (code : Nat) (detail : String)
deriving DecidableEq

/-- Result and post-state of `remove_url`; `visited` carries the loop's
instrumentation through. -/
structure RemoveOut (σ : Type) where
  res : RemoveResult
  reg : Registry
  store : σ
  visited : List Point
deriving DecidableEq

/-- `remove_url` (api.py lines 439-511): validate the URL, 404 when it is
not registered, run the scan-and-delete loop, and only after the loop
succeeded remove the URL from `loaded_urls` (first occurrence, as Python
`list.remove`) and drop `knowledge_loaded` when the list became empty.
A raising store operation surfaces as the 500 handler of line 508 with
the registry untouched.  `none` means the loop never terminated. -/
def removeUrlEndpoint {σ κ : Type} (c : QClient σ κ) (fuel : Nat) (s : σ)
    (reg : Registry) (url0 : String) : Option (RemoveOut σ) :=
  if pyStripStr url0 = "" then
    some ⟨.httpError 400 "URL cannot be empty", reg, s, []⟩
  else
    let url := pyStripStr url0
    if url ∉ reg.loadedUrls then
      some ⟨.httpError 404 ("URL " ++ url ++ " not found in loaded URLs"), reg, s, []⟩
    else
      match removeLoop c url fuel s none 0 [] with
      | none => none
      | some (.error (e, s')) =>
        some ⟨.httpError 500 ("Error removing URL: " ++ e), reg, s', []⟩
      | some (.ok (s', count, visited)) =>
        let remaining := reg.loadedUrls.erase url
        some ⟨.ok count remaining,
              { loadedUrls := remaining,
                knowledgeLoaded := if remaining.length = 0 then false else reg.knowledgeLoaded },
              s', visited⟩

/-- Outcome of `POST /clear-knowledge-base`. -/
inductive ClearResult where
  | ok (deletedCount : Nat)
  | httpError (code : Nat) (detail : String)
deriving DecidableEq

/-- Result and post-state of `clear_knowledge_base`; `delCalls` counts the
`client.delete` calls issued (instrumentation for the one-bulk-delete
property). -/
structure ClearOut (σ : Type) where
  res : ClearResult
  reg : Registry
  store : σ
  delCalls : Nat
deriving DecidableEq

/-- `clear_knowledge_base` (api.py lines 515-566): collect every id across
all scroll pages, then issue a single bulk delete when any ids were
found, clear `loaded_urls` and reset `knowledge_loaded`, and report the
number of collected ids.  A raising store operation surfaces as the 500
handler of line 563 with the registry untouched. -/
def clearKnowledgeBase {σ κ : Type} (c : QClient σ κ) (fuel : Nat) (s : σ)
    (reg : Registry) : Option (ClearOut σ) :=
  match clearLoop c fuel s none [] with
  | none => none
  | some (.error (e, s')) =>
    some ⟨.httpError 500 ("Error clearing knowledge base: " ++ e), reg, s', 0⟩
  | some (.ok (s', allIds)) =>
    if allIds.isEmpty then
      some ⟨.ok allIds.length, ⟨[], false⟩, s', 0⟩
    else
      match c.del s' allIds with
      | .error e =>
        some ⟨.httpError 500 ("Error clearing knowledge base: " ++ e), reg, s', 1⟩
      | .ok s'' =>
        some ⟨.ok allIds.length, ⟨[], false⟩, s'', 1⟩

/-- An adversarial store client whose scroll always serves one record
with a continuation cursor that never advances (and never errors): the
behaviour the pagination-termination property quantifies over. -/
def stuckClient : QClient Unit Unit where
  scroll := fun _ _ => .ok ([⟨0, none, none⟩], some ())
  del := fun s _ => .ok s

/-! ## Pagination lemmas for the id-cursor store -/

theorem head?_mem {α : Type} {l : List α} {a : α} (h : l.head? = some a) : a ∈ l := by
  cases l with
  | nil => cases h
  | cons b t =>
    have hb : b = a := by simpa using h
    rw [← hb]
    exact List.mem_cons_self _ _

theorem point_id_inj {s : List Point} (hs : s.Pairwise (fun a b => a.id < b.id))
    {p q : Point} (hp : p ∈ s) (hq : q ∈ s) (h : p.id = q.id) : p = q := by
  induction s with
  | nil => cases hp
  | cons a t ihs =>
    rw [List.pairwise_cons] at hs
    rcases List.mem_cons.mp hp with rfl | hp'
    · rcases List.mem_cons.mp hq with rfl | hq'
      · rfl
      · exact absurd h (Nat.ne_of_lt (hs.1 q hq'))
    · rcases List.mem_cons.mp hq with rfl | hq'
      · exact absurd h.symm (Nat.ne_of_lt (hs.1 p hp'))
      · exact ihs hs.2 hp' hq'

theorem mem_elig {o : Option Nat} {s : List Point} {p : Point} :
    p ∈ elig o s ↔ p ∈ s ∧ eligB o p = true := by
  simp [elig, List.mem_filter]

theorem elig_pairwise {s : List Point} (hs : s.Pairwise (fun a b => a.id < b.id))
    (o : Option Nat) : (elig o s).Pairwise (fun a b => a.id < b.id) :=
  hs.sublist (List.filter_sublist s)

/-- Records before the page boundary have smaller ids than the record the
continuation cursor points at. -/
theorem take_id_lt {s : List Point} (hs : s.Pairwise (fun a b => a.id < b.id))
    {o : Option Nat} {limit : Nat} {e : Point}
    (he : ((elig o s).drop limit).head? = some e) :
    ∀ a ∈ (elig o s).take limit, a.id < e.id := by
  have hE : (elig o s).Pairwise (fun a b => a.id < b.id) := elig_pairwise hs o
  have heMem : e ∈ (elig o s).drop limit := head?_mem he
  have hcross : ∀ a ∈ (elig o s).take limit, ∀ b ∈ (elig o s).drop limit, a.id < b.id :=
    (List.pairwise_append.mp (by rw [List.take_append_drop]; exact hE)).2.2
  exact fun a ha => hcross a ha e heMem

/-- Records at or past the page boundary have ids at least the cursor's. -/
theorem drop_id_ge {s : List Point} (hs : s.Pairwise (fun a b => a.id < b.id))
    {o : Option Nat} {limit : Nat} {e : Point}
    (he : ((elig o s).drop limit).head? = some e) :
    ∀ b ∈ (elig o s).drop limit, e.id ≤ b.id := by
  have hpd : ((elig o s).drop limit).Pairwise (fun a b => a.id < b.id) :=
    (elig_pairwise hs o).sublist (List.drop_sublist _ _)
  cases hdl : (elig o s).drop limit with
  | nil => rw [hdl] at he; cases he
  | cons e' tl =>
    rw [hdl] at he hpd
    have he' : e' = e := by simpa using he
    subst he'
    rw [List.pairwise_cons] at hpd
    intro b hb
    rcases List.mem_cons.mp hb with rfl | hb'
    · exact Nat.le_refl _
    · exact Nat.le_of_lt (hpd.1 b hb')

/-- The continuation cursor resumes the scan exactly at the page
boundary: the records of the store at or past the cursor id are exactly
the eligible records beyond the served page. -/
theorem elig_some_eq_drop {s : List Point} (hs : s.Pairwise (fun a b => a.id < b.id))
    {o : Option Nat} {limit : Nat} {e : Point}
    (he : ((elig o s).drop limit).head? = some e) :
    elig (some e.id) s = (elig o s).drop limit := by
  have heMem : e ∈ (elig o s).drop limit := head?_mem he
  have heE : e ∈ elig o s := (List.drop_sublist _ _).mem heMem
  have h1 : elig (some e.id) s = (elig o s).filter (eligB (some e.id)) := by
    unfold elig
    rw [List.filter_filter]
    refine List.filter_congr ?_
    intro a _
    cases o with
    | none => simp [eligB]
    | some n =>
      have hne : n ≤ e.id := by
        have := (mem_elig.mp heE).2
        simpa [eligB] using this
      by_cases hea : e.id ≤ a.id
      · have hna : n ≤ a.id := Nat.le_trans hne hea
        simp [eligB, hea, hna]
      · simp [eligB, hea]
  have h2 : (elig o s).filter (eligB (some e.id)) = (elig o s).drop limit := by
    conv_lhs => rw [← List.take_append_drop limit (elig o s)]
    rw [List.filter_append,
      List.filter_eq_nil_iff.mpr (fun a ha => by
        simp only [eligB, decide_eq_true_eq]
        exact Nat.not_le.mpr (take_id_lt hs he a ha)),
      List.filter_eq_self.mpr (fun b hb => by
        simp only [eligB, decide_eq_true_eq]
        exact drop_id_ge hs he b hb),
      List.nil_append]
  rw [h1, h2]

/-- A record's id is among the ids selected for deletion from a page iff
the record itself sits on the page and matches the url (by id
injectivity). -/
theorem mem_ids_iff {s : List Point} (hs : s.Pairwise (fun a b => a.id < b.id))
    {o : Option Nat} {limit : Nat} {url : String} {p : Point} (hp : p ∈ s) :
    p.id ∈ (((elig o s).take limit).filter (matchP url)).map (·.id) ↔
      (p ∈ (elig o s).take limit ∧ matchP url p = true) := by
  constructor
  · intro h
    obtain ⟨q, hq, hqid⟩ := List.mem_map.mp h
    obtain ⟨hqpts, hqm⟩ := List.mem_filter.mp hq
    have hqs : q ∈ s :=
      List.mem_of_mem_filter (List.mem_of_mem_take hqpts)
    have hpq : p = q := point_id_inj hs hp hqs hqid.symm
    exact hpq ▸ ⟨hqpts, hqm⟩
  · rintro ⟨hpts, hm⟩
    exact List.mem_map.mpr ⟨p, List.mem_filter.mpr ⟨hpts, hm⟩, rfl⟩

/-- After the final page (cursor exhausted), deleting the page's matching
ids amounts to filtering out every eligible matching record. -/
theorem delete_filter_last {s : List Point} (hs : s.Pairwise (fun a b => a.id < b.id))
    {o : Option Nat} {limit : Nat} {url : String}
    (hdrop : (elig o s).drop limit = []) :
    s.filter (fun p => decide (p.id ∉ (((elig o s).take limit).filter (matchP url)).map (·.id))) =
      s.filter (fun p => !(eligB o p && matchP url p)) := by
  refine List.filter_congr ?_
  intro p hp
  have hEtake : (elig o s).take limit = elig o s :=
    List.take_of_length_le (List.drop_eq_nil_iff.mp hdrop)
  by_cases heo : eligB o p = true
  · have hpE : p ∈ (elig o s).take limit := by
      rw [hEtake]
      exact mem_elig.mpr ⟨hp, heo⟩
    by_cases hm : matchP url p = true
    · have : p.id ∈ (((elig o s).take limit).filter (matchP url)).map (·.id) :=
        (mem_ids_iff hs hp).mpr ⟨hpE, hm⟩
      simp [this, heo, hm]
    · have : p.id ∉ (((elig o s).take limit).filter (matchP url)).map (·.id) := by
        intro hin
        exact hm ((mem_ids_iff hs hp).mp hin).2
      simp [this, heo, hm]
  · have : p.id ∉ (((elig o s).take limit).filter (matchP url)).map (·.id) := by
      intro hin
      have hpE := ((mem_ids_iff hs hp).mp hin).1
      have : p ∈ elig o s := List.mem_of_mem_take hpE
      exact heo (mem_elig.mp this).2
    simp [this, heo]

/-- In the middle of the scan, deleting the page's matching ids and then
filtering out the eligible matching records past the cursor amounts to
filtering out every record eligible from the original offset that
matches. -/
theorem delete_filter_step {s : List Point} (hs : s.Pairwise (fun a b => a.id < b.id))
    {o : Option Nat} {limit : Nat} {url : String} {e : Point}
    (he : ((elig o s).drop limit).head? = some e) :
    (s.filter (fun p => decide (p.id ∉ (((elig o s).take limit).filter (matchP url)).map (·.id)))).filter
        (fun p => !(eligB (some e.id) p && matchP url p)) =
      s.filter (fun p => !(eligB o p && matchP url p)) := by
  have heE : e ∈ elig o s :=
    (List.drop_sublist _ _).mem (head?_mem he)
  rw [List.filter_filter]
  refine List.filter_congr ?_
  intro p hp
  by_cases heo : eligB o p = true
  · have hpE : p ∈ elig o s := mem_elig.mpr ⟨hp, heo⟩
    rcases List.mem_append.mp (by
        rw [List.take_append_drop limit (elig o s)]
        exact hpE) with hpt | hpd
    · have hlt : p.id < e.id := take_id_lt hs he p hpt
      have helt : eligB (some e.id) p = false := by
        simp [eligB, Nat.not_le.mpr hlt]
      by_cases hm : matchP url p = true
      · have : p.id ∈ (((elig o s).take limit).filter (matchP url)).map (·.id) :=
          (mem_ids_iff hs hp).mpr ⟨hpt, hm⟩
        simp [this, helt, heo, hm]
      · have : p.id ∉ (((elig o s).take limit).filter (matchP url)).map (·.id) := by
          intro hin
          exact hm ((mem_ids_iff hs hp).mp hin).2
        simp [this, helt, heo, hm]
    · have hge : e.id ≤ p.id := drop_id_ge hs he p hpd
      have hege : eligB (some e.id) p = true := by simp [eligB, hge]
      have hnin : p.id ∉ (((elig o s).take limit).filter (matchP url)).map (·.id) := by
        intro hin
        have hpt := ((mem_ids_iff hs hp).mp hin).1
        exact absurd hge (Nat.not_le.mpr (take_id_lt hs he p hpt))
      simp [hnin, hege, heo]
  · cases o with
    | none => simp [eligB] at heo
    | some n =>
      have hpn : p.id < n := by
        have h1 := heo
        simp only [eligB, decide_eq_true_eq] at h1
        exact Nat.lt_of_not_le h1
      have heq : eligB (some n) p = false := by
        simp [eligB, Nat.not_le.mpr hpn]
      have hne : n ≤ e.id := by
        have h2 := (mem_elig.mp heE).2
        simpa [eligB] using h2
      have helt : eligB (some e.id) p = false := by
        simp [eligB, Nat.not_le.mpr (Nat.lt_of_lt_of_le hpn hne)]
      have hnin : p.id ∉ (((elig (some n) s).take limit).filter (matchP url)).map (·.id) := by
        intro hin
        have hpE := List.mem_of_mem_take ((mem_ids_iff hs hp).mp hin).1
        have h3 := (mem_elig.mp hpE).2
        rw [heq] at h3
        cases h3
      simp [hnin, helt, heq]

/-! ## Traversal invariants of the crawler -/

/-- The joint invariant a call of `scrapePage`/`followLinks` at page `u`
establishes between the incoming state `st` and the outgoing state
`stF`: visited only grows; every new visited or fetched URL is `u` itself
or shares `u`'s netloc; the fetched list stays duplicate-free and inside
the visited set; every new document respects the depth bound `md`, the
50-character signal threshold, and has depth at least `dl`. -/
def TProps (md dl : Nat) (u : String) (st stF : CrawlState) : Prop :=
  (st.visited ⊆ stF.visited)
  ∧ (∀ x ∈ stF.visited, x ∈ st.visited ∨ x = u ∨ urlNetloc x = urlNetloc u)
  ∧ (∀ x ∈ stF.fetched, x ∈ st.fetched ∨ x = u ∨ urlNetloc x = urlNetloc u)
  ∧ ((st.fetched.Nodup ∧ ∀ x ∈ st.fetched, x ∈ st.visited) →
      (stF.fetched.Nodup ∧ ∀ x ∈ stF.fetched, x ∈ stF.visited))
  ∧ (∀ d ∈ stF.documents,
      d ∈ st.documents ∨ (d.depth ≤ md ∧ 50 < d.content.length ∧ dl ≤ d.depth))

theorem tprops_refl (md dl : Nat) (u : String) (st : CrawlState) :
    TProps md dl u st st :=
  ⟨fun _ hx => hx, fun _ hx => Or.inl hx, fun _ hx => Or.inl hx,
    fun h => h, fun _ hd => Or.inl hd⟩

theorem tprops_trans {md dl : Nat} {u : String} {a b c : CrawlState}
    (h1 : TProps md dl u a b) (h2 : TProps md dl u b c) : TProps md dl u a c := by
  obtain ⟨p1, p2, p3, p4, p5⟩ := h1
  obtain ⟨q1, q2, q3, q4, q5⟩ := h2
  refine ⟨fun x hx => q1 (p1 hx), ?_, ?_, fun h => q4 (p4 h), ?_⟩
  · intro x hx
    rcases q2 x hx with h | h
    · exact p2 x h
    · exact Or.inr h
  · intro x hx
    rcases q3 x hx with h | h
    · exact p3 x h
    · exact Or.inr h
  · intro d hd
    rcases q5 d hd with h | h
    · exact p5 d h
    · exact Or.inr h

theorem tprops_retarget {md dl : Nat} {u v : String} {st stF : CrawlState}
    (hnet : urlNetloc u = urlNetloc v) (h : TProps md dl u st stF) :
    TProps md dl v st stF := by
  obtain ⟨p1, p2, p3, p4, p5⟩ := h
  refine ⟨p1, ?_, ?_, p4, p5⟩
  · intro x hx
    rcases p2 x hx with h | h | h
    · exact Or.inl h
    · exact Or.inr (Or.inr (h ▸ hnet))
    · exact Or.inr (Or.inr (h.trans hnet))
  · intro x hx
    rcases p3 x hx with h | h | h
    · exact Or.inl h
    · exact Or.inr (Or.inr (h ▸ hnet))
    · exact Or.inr (Or.inr (h.trans hnet))

theorem tprops_mono {md dl dl' : Nat} {u : String} {st stF : CrawlState}
    (hle : dl' ≤ dl) (h : TProps md dl u st stF) : TProps md dl' u st stF := by
  obtain ⟨p1, p2, p3, p4, p5⟩ := h
  refine ⟨p1, p2, p3, p4, ?_⟩
  intro d hd
  rcases p5 d hd with h | ⟨h1, h2, h3⟩
  · exact Or.inl h
  · exact Or.inr ⟨h1, h2, hle.trans h3⟩

/-- The visit-record-fetch step of one page: marking the page visited and
fetched (and possibly appending one document emitted at the current
depth) satisfies the invariant, provided the page was not yet visited. -/
theorem tprops_fetchStep {md : Nat} (pageUrl : String) (depth : Nat)
    (st : CrawlState) (hvis : pageUrl ∉ st.visited)
    (docs' : List CrawlDoc)
    (hdocs : ∀ d ∈ docs',
      d ∈ st.documents ∨ (d.depth ≤ md ∧ 50 < d.content.length ∧ depth ≤ d.depth)) :
    TProps md depth pageUrl st ⟨docs', pageUrl :: st.visited, st.fetched ++ [pageUrl]⟩ := by
  refine ⟨fun x hx => List.mem_cons_of_mem _ hx, ?_, ?_, ?_, hdocs⟩
  · intro x hx
    rcases List.mem_cons.mp hx with h | h
    · exact Or.inr (Or.inl h)
    · exact Or.inl h
  · intro x hx
    rcases List.mem_append.mp hx with h | h
    · exact Or.inl h
    · exact Or.inr (Or.inl (List.mem_singleton.mp h))
  · rintro ⟨hnd, hsub⟩
    refine ⟨?_, ?_⟩
    · refine List.Nodup.append hnd (List.nodup_singleton _) ?_
      intro x hx hx'
      rw [List.mem_singleton] at hx'
      subst hx'
      exact hvis (hsub x hx)
    · intro x hx
      rcases List.mem_append.mp hx with h | h
      · exact List.mem_cons_of_mem _ (hsub x h)
      · rw [List.mem_singleton] at h
        subst h
        exact List.mem_cons_self _ _

/-- Main traversal invariant of `scrapePage`, proved together with the
corresponding invariant of the link loop. -/
theorem scrapePage_tprops (web : String → Option Page) (ml md : Nat) :
    ∀ fuel pageUrl depth st,
      TProps md depth pageUrl st (scrapePage web ml md fuel pageUrl depth st) := by
  intro fuel
  induction fuel with
  | zero => intro pageUrl depth st; exact tprops_refl md depth pageUrl st
  | succ fuel ih =>
    have fprops : ∀ links pageUrl depth st,
        TProps md (depth + 1) pageUrl st
          (followLinks (scrapePage web ml md fuel) links pageUrl depth st) := by
      intro links
      induction links with
      | nil => intro pageUrl depth st; exact tprops_refl _ _ _ _
      | cons href rest ihl =>
        intro pageUrl depth st
        show TProps md (depth + 1) pageUrl st
          (followLinks (scrapePage web ml md fuel) rest pageUrl depth
            (match resolveHref pageUrl href with
              | none => st
              | some absolute =>
                if urlNetloc absolute = urlNetloc pageUrl then
                  scrapePage web ml md fuel absolute (depth + 1) st
                else st))
        refine tprops_trans ?_ (ihl pageUrl depth _)
        cases hre : resolveHref pageUrl href with
        | none => exact tprops_refl _ _ _ _
        | some absolute =>
          show TProps md (depth + 1) pageUrl st
            (if urlNetloc absolute = urlNetloc pageUrl then
              scrapePage web ml md fuel absolute (depth + 1) st
            else st)
          by_cases hnet : urlNetloc absolute = urlNetloc pageUrl
          · rw [if_pos hnet]
            exact tprops_retarget hnet (ih absolute (depth + 1) st)
          · rw [if_neg hnet]
            exact tprops_refl _ _ _ _
    intro pageUrl depth st
    simp only [scrapePage]
    by_cases hguard : depth > md ∨ pageUrl ∈ st.visited
    · rw [if_pos hguard]
      exact tprops_refl _ _ _ _
    · rw [if_neg hguard]
      push_neg at hguard
      obtain ⟨hdep, hvis⟩ := hguard
      cases hweb : web pageUrl with
      | none =>
        exact tprops_fetchStep pageUrl depth st hvis _ (fun d hd => Or.inl hd)
      | some pg =>
        dsimp only
        by_cases hdc : cleanText pg.rawText ≠ "" ∧ (cleanText pg.rawText).length > 50
        · rw [if_pos hdc]
          have hdocs : ∀ d ∈ st.documents ++
              [{ name := pg.title.getD pageUrl, content := cleanText pg.rawText,
                 url := pageUrl, depth := depth : CrawlDoc }],
              d ∈ st.documents ∨ (d.depth ≤ md ∧ 50 < d.content.length ∧ depth ≤ d.depth) := by
            intro d hd
            rcases List.mem_append.mp hd with h | h
            · exact Or.inl h
            · rw [List.mem_singleton] at h
              subst h
              exact Or.inr ⟨hdep, hdc.2, Nat.le_refl _⟩
          by_cases hfl : depth < md ∧ (st.documents ++
              [{ name := pg.title.getD pageUrl, content := cleanText pg.rawText,
                 url := pageUrl, depth := depth : CrawlDoc }]).length < ml * 2
          · rw [if_pos hfl]
            exact tprops_trans (tprops_fetchStep pageUrl depth st hvis _ hdocs)
              (tprops_mono (Nat.le_succ depth) (fprops _ pageUrl depth _))
          · rw [if_neg hfl]
            exact tprops_fetchStep pageUrl depth st hvis _ hdocs
        · rw [if_neg hdc]
          by_cases hfl : depth < md ∧ st.documents.length < ml * 2
          · rw [if_pos hfl]
            exact tprops_trans
              (tprops_fetchStep pageUrl depth st hvis _ (fun d hd => Or.inl hd))
              (tprops_mono (Nat.le_succ depth) (fprops _ pageUrl depth _))
          · rw [if_neg hfl]
            exact tprops_fetchStep pageUrl depth st hvis _ (fun d hd => Or.inl hd)

/-! ## The scan loops against the id-cursor store -/


theorem elig_delete_eq_drop {s : List Point} (hs : s.Pairwise (fun a b => a.id < b.id))
    {o : Option Nat} {limit : Nat} {url : String} {e : Point}
    (he : ((elig o s).drop limit).head? = some e) :
    elig (some e.id)
        (s.filter (fun p => decide (p.id ∉ (((elig o s).take limit).filter (matchP url)).map (·.id)))) =
      (elig o s).drop limit := by
  have h1 : elig (some e.id)
      (s.filter (fun p => decide (p.id ∉ (((elig o s).take limit).filter (matchP url)).map (·.id)))) =
      elig (some e.id) s := by
    show (s.filter (fun p => decide (p.id ∉
        (((elig o s).take limit).filter (matchP url)).map (·.id)))).filter (eligB (some e.id)) =
      s.filter (eligB (some e.id))
    rw [List.filter_filter]
    refine List.filter_congr ?_
    intro p hp
    by_cases hge : e.id ≤ p.id
    · have hnin : p.id ∉ (((elig o s).take limit).filter (matchP url)).map (·.id) := by
        intro hin
        have hpt := ((mem_ids_iff hs hp).mp hin).1
        exact absurd hge (Nat.not_le.mpr (take_id_lt hs he p hpt))
      have h1 : eligB (some e.id) p = true := by simp [eligB, hge]
      have h2 : (decide (p.id ∉
          (((elig o s).take limit).filter (matchP url)).map (·.id))) = true := by
        simp only [decide_eq_true_eq]
        exact hnin
      rw [h1, h2]
      rfl
    · simp [eligB, hge]
  rw [h1]
  exact elig_some_eq_drop hs he

theorem qdrantClient_scroll_some (limit : Nat) (pts : List Point) (o : Option Nat) :
    (qdrantClient limit).scroll (some pts) o = .ok (qdrantScroll limit pts o) := rfl

theorem qdrantClient_del_some (limit : Nat) (pts : List Point) (ids : List Nat) :
    (qdrantClient limit).del (some pts) ids =
      .ok (some (pts.filter (fun p => decide (p.id ∉ ids)))) := rfl

theorem removeLoop_qdrant (limit : Nat) (hl : 0 < limit) (url : String) :
    ∀ fuel (s : List Point) (o : Option Nat) (count : Nat) (visited : List Point),
      s.Pairwise (fun a b => a.id < b.id) →
      (elig o s).length < fuel →
      removeLoop (qdrantClient limit) url fuel (some s) o count visited =
        some (.ok (some (s.filter (fun p => !(eligB o p && matchP url p))),
          count + (elig o s).countP (matchP url),
          visited ++ elig o s)) := by
  intro fuel
  induction fuel with
  | zero => intro s o count visited _ hlen; exact absurd hlen (Nat.not_lt_zero _)
  | succ fuel ih =>
    intro s o count visited hs hlen
    by_cases hE : elig o s = []
    · have h1 : s.filter (fun p => !(eligB o p && matchP url p)) = s := by
        refine List.filter_eq_self.mpr ?_
        intro p hp
        have hf : eligB o p = false := by
          cases h : eligB o p
          · rfl
          · exact absurd (mem_elig.mpr ⟨hp, h⟩) (by simp [hE])
        simp [hf]
      rw [h1, hE]
      simp [removeLoop, qdrantClient_scroll_some, qdrantScroll, hE]
    · have hne_isEmpty : ((elig o s).take limit).isEmpty = false := by
        cases h : ((elig o s).take limit).isEmpty
        · rfl
        · rw [List.isEmpty_iff] at h
          rw [List.take_eq_nil_iff] at h
          rcases h with h | h
          · exact absurd h (Nat.ne_of_gt hl)
          · exact absurd h hE
      have hstep_eq :
          (if ((((elig o s).take limit).filter (matchP url)).map (·.id)).isEmpty = true then
            (Except.ok (some s, count) : Except (String × Option (List Point)) (Option (List Point) × Nat))
          else
            Except.ok
              (some (s.filter (fun p =>
                decide (p.id ∉ (((elig o s).take limit).filter (matchP url)).map (·.id)))),
                count + ((((elig o s).take limit).filter (matchP url)).map (·.id)).length)) =
          Except.ok
            (some (s.filter (fun p =>
              decide (p.id ∉ (((elig o s).take limit).filter (matchP url)).map (·.id)))),
              count + ((((elig o s).take limit).filter (matchP url)).map (·.id)).length) := by
        by_cases hids : ((((elig o s).take limit).filter (matchP url)).map (·.id)).isEmpty = true
        · have hid0 : (((elig o s).take limit).filter (matchP url)).map (·.id) = [] :=
            List.isEmpty_iff.mp hids
          rw [if_pos hids, hid0]
          simp
        · rw [if_neg hids]
      have hcnt : (((((elig o s).take limit).filter (matchP url)).map (·.id))).length =
          ((elig o s).take limit).countP (matchP url) := by
        rw [List.length_map, List.countP_eq_length_filter]
      have hcntE : (elig o s).countP (matchP url) =
          ((elig o s).take limit).countP (matchP url) + ((elig o s).drop limit).countP (matchP url) := by
        conv_lhs => rw [← List.take_append_drop limit (elig o s)]
        rw [List.countP_append]
      simp only [removeLoop, qdrantClient_scroll_some, qdrantClient_del_some, qdrantScroll, hne_isEmpty, hstep_eq]
      cases hnext : ((elig o s).drop limit).head? with
      | none =>
        have hdrop : (elig o s).drop limit = [] := List.head?_eq_none_iff.mp hnext
        have htake : (elig o s).take limit = elig o s :=
          List.take_of_length_le (List.drop_eq_nil_iff.mp hdrop)
        simp only [Option.map_none']
        rw [delete_filter_last hs hdrop]
        rw [hcnt, hcntE, hdrop, htake]
        simp
      | some e =>
        simp only [Option.map_some']
        have hdl : (elig (some e.id)
            (s.filter (fun p =>
              decide (p.id ∉ (((elig o s).take limit).filter (matchP url)).map (·.id))))) =
            (elig o s).drop limit := elig_delete_eq_drop hs hnext
        have hlen2 : (elig (some e.id)
            (s.filter (fun p =>
              decide (p.id ∉ (((elig o s).take limit).filter (matchP url)).map (·.id))))).length < fuel := by
          rw [hdl, List.length_drop]
          have h1 : (elig o s).length ≤ fuel := Nat.lt_succ_iff.mp hlen
          have h2 : 1 ≤ (elig o s).length := by
            cases hEE : elig o s with
            | nil => exact absurd hEE hE
            | cons a t => simp
          omega
        rw [ih _ (some e.id) _ _ (hs.sublist (List.filter_sublist s)) hlen2]
        rw [delete_filter_step hs hnext]
        rw [hdl, hcnt, hcntE]
        rw [List.append_assoc, List.take_append_drop]
        rw [Nat.add_assoc]
        simp

theorem clearLoop_qdrant (limit : Nat) (hl : 0 < limit) :
    ∀ fuel (s : List Point) (o : Option Nat) (acc : List Nat),
      s.Pairwise (fun a b => a.id < b.id) →
      (elig o s).length < fuel →
      clearLoop (qdrantClient limit) fuel (some s) o acc =
        some (.ok (some s, acc ++ (elig o s).map (·.id))) := by
  intro fuel
  induction fuel with
  | zero => intro s o acc _ hlen; exact absurd hlen (Nat.not_lt_zero _)
  | succ fuel ih =>
    intro s o acc hs hlen
    by_cases hE : elig o s = []
    · rw [hE]
      simp [clearLoop, qdrantClient_scroll_some, qdrantScroll, hE]
    · have hne_isEmpty : ((elig o s).take limit).isEmpty = false := by
        cases h : ((elig o s).take limit).isEmpty
        · rfl
        · rw [List.isEmpty_iff] at h
          rw [List.take_eq_nil_iff] at h
          rcases h with h | h
          · exact absurd h (Nat.ne_of_gt hl)
          · exact absurd h hE
      simp only [clearLoop, qdrantClient_scroll_some, qdrantScroll, hne_isEmpty]
      cases hnext : ((elig o s).drop limit).head? with
      | none =>
        have hdrop : (elig o s).drop limit = [] := List.head?_eq_none_iff.mp hnext
        have htake : (elig o s).take limit = elig o s :=
          List.take_of_length_le (List.drop_eq_nil_iff.mp hdrop)
        simp only [Option.map_none']
        rw [htake]
        simp
      | some e =>
        simp only [Option.map_some']
        have hdl : elig (some e.id) s = (elig o s).drop limit := elig_some_eq_drop hs hnext
        have hlen2 : (elig (some e.id) s).length < fuel := by
          rw [hdl, List.length_drop]
          have h1 : (elig o s).length ≤ fuel := Nat.lt_succ_iff.mp hlen
          have h2 : 1 ≤ (elig o s).length := by
            cases hEE : elig o s with
            | nil => exact absurd hEE hE
            | cons a t => simp
          omega
        rw [ih _ (some e.id) _ hs hlen2]
        rw [hdl]
        rw [List.append_assoc, ← List.map_append, List.take_append_drop]
        simp

/-! ## Endpoint-level corollaries -/


theorem elig_none (s : List Point) : elig none s = s :=
  List.filter_eq_self.mpr (fun _ _ => rfl)

theorem addRecords_ids_ge (n : Nat) (docs : List CrawlDoc) :
    ∀ p ∈ addRecords n docs, n ≤ p.id := by
  induction docs generalizing n with
  | nil => intro p hp; cases hp
  | cons d ds ihd =>
    intro p hp
    rcases List.mem_cons.mp hp with rfl | hp'
    · exact Nat.le_refl _
    · exact Nat.le_of_lt (Nat.lt_of_lt_of_le (Nat.lt_succ_self n) (ihd (n + 1) p hp'))

theorem addRecords_pairwise (n : Nat) (docs : List CrawlDoc) :
    (addRecords n docs).Pairwise (fun a b => a.id < b.id) := by
  induction docs generalizing n with
  | nil => exact List.Pairwise.nil
  | cons d ds ihd =>
    rw [addRecords, List.pairwise_cons]
    exact ⟨fun p hp => Nat.lt_of_lt_of_le (Nat.lt_succ_self n) (addRecords_ids_ge (n + 1) ds p hp),
      ihd (n + 1)⟩

theorem addRecords_length (n : Nat) (docs : List CrawlDoc) :
    (addRecords n docs).length = docs.length := by
  induction docs generalizing n with
  | nil => rfl
  | cons d ds ihd => simp [addRecords, ihd]

theorem addRecords_match (n : Nat) (u : String) (docs : List CrawlDoc)
    (hdocs : ∀ d ∈ docs, d.url = u) :
    ∀ p ∈ addRecords n docs, matchP u p = true := by
  induction docs generalizing n with
  | nil => intro p hp; cases hp
  | cons d ds ihd =>
    intro p hp
    rcases List.mem_cons.mp hp with rfl | hp'
    · simp [matchP, pointUrl, hdocs d (List.mem_cons_self _ _)]
    · exact ihd (n + 1) (fun x hx => hdocs x (List.mem_cons_of_mem _ hx)) p hp'

theorem addRecords_countP (n : Nat) (u : String) (docs : List CrawlDoc)
    (hdocs : ∀ d ∈ docs, d.url = u) :
    (addRecords n docs).countP (matchP u) = docs.length := by
  rw [List.countP_eq_length_filter,
    List.filter_eq_self.mpr (addRecords_match n u docs hdocs), addRecords_length]

theorem addRecords_filter_nomatch (n : Nat) (u : String) (docs : List CrawlDoc)
    (hdocs : ∀ d ∈ docs, d.url = u) :
    (addRecords n docs).filter (fun p => !(eligB none p && matchP u p)) = [] := by
  refine List.filter_eq_nil_iff.mpr ?_
  intro p hp
  simp [eligB, addRecords_match n u docs hdocs p hp]

theorem filter_own_ids_nil (s : List Point) :
    s.filter (fun p => decide (p.id ∉ s.map (·.id))) = [] := by
  refine List.filter_eq_nil_iff.mpr ?_
  intro p hp
  simp only [decide_eq_true_eq]
  intro hcon
  exact hcon (List.mem_map.mpr ⟨p, hp, rfl⟩)

/-- `remove_url` against the modelled store: with the URL registered and
enough fuel, the endpoint succeeds, reports the number of matching
records, deletes exactly those, removes the URL from the registry, and
examines every record once. -/
theorem removeUrlEndpoint_qdrant (s : List Point) (reg : Registry) (url : String) (fuel : Nat)
    (hs : s.Pairwise (fun a b => a.id < b.id)) (hfuel : s.length < fuel)
    (hstrip : pyStripStr url = url) (hne : url ≠ "") (hmem : url ∈ reg.loadedUrls) :
    removeUrlEndpoint (qdrantClient 100) fuel (some s) reg url =
      some ⟨.ok (s.countP (matchP url)) (reg.loadedUrls.erase url),
        ⟨reg.loadedUrls.erase url,
          if (reg.loadedUrls.erase url).length = 0 then false else reg.knowledgeLoaded⟩,
        some (s.filter (fun p => !(eligB none p && matchP url p))), s⟩ := by
  have hlen : (elig none s).length < fuel := by rw [elig_none]; exact hfuel
  unfold removeUrlEndpoint
  rw [hstrip, if_neg hne, if_neg (not_not_intro hmem)]
  rw [removeLoop_qdrant 100 (by omega) url fuel s none 0 [] hs hlen]
  rw [elig_none]
  simp

/-- `clear_knowledge_base` against the modelled store: with enough fuel
and an existing collection, the endpoint succeeds, reports the total
number of records, clears the registry, and issues one bulk delete when
any record existed (none otherwise). -/
theorem clearKnowledgeBase_qdrant (s : List Point) (reg : Registry) (fuel : Nat)
    (hs : s.Pairwise (fun a b => a.id < b.id)) (hfuel : s.length < fuel) :
    clearKnowledgeBase (qdrantClient 100) fuel (some s) reg =
      some ⟨.ok s.length, ⟨[], false⟩,
        some (if s.isEmpty then s else s.filter (fun p => decide (p.id ∉ s.map (·.id)))),
        if s.isEmpty then 0 else 1⟩ := by
  have hlen : (elig none s).length < fuel := by rw [elig_none]; exact hfuel
  unfold clearKnowledgeBase
  rw [clearLoop_qdrant 100 (by omega) fuel s none [] hs hlen]
  rw [elig_none]
  cases hse : s.isEmpty with
  | true =>
    have hs0 : s = [] := List.isEmpty_iff.mp hse
    subst hs0
    simp
  | false =>
    have hs0 : s ≠ [] := by
      intro h
      rw [h] at hse
      cases hse
    have hmapne : (s.map (·.id)).isEmpty = false := by
      cases hmm : (s.map (·.id)).isEmpty
      · rfl
      · rw [List.isEmpty_iff, List.map_eq_nil_iff] at hmm
        exact absurd hmm hs0
    simp only [List.nil_append, hmapne]
    rw [qdrantClient_del_some]
    simp


/-! ## Concrete inputs for the claim witnesses and counterexamples -/

/-- A two-page site: the seed links to a same-origin child page; both
pages carry substantial text. -/
def webTwoPages : String → Option Page := fun u =>
  if u = "https://a.com/" then
    some ⟨"Seed page with quite a lot of substantial textual content here indeed.",
      some "Seed", ["/b"]⟩
  else if u = "https://a.com/b" then
    some ⟨"Child page with quite a lot of substantial textual content here too.",
      some "Child", []⟩
  else none

/-- A site whose seed page (served over https) links to the same host
over plain http. -/
def webCrossScheme : String → Option Page := fun u =>
  if u = "https://a.com/" then
    some ⟨"Seed page with quite a lot of substantial textual content here indeed.",
      some "Seed", ["http://a.com/x"]⟩
  else none

/-- The spec's depth-0 scenario: substantial paragraph and two
same-origin links. -/
def webScenario : String → Option Page := fun u =>
  if u = "https://start.com/" then
    some ⟨"Hello World, this is a substantial paragraph of content exceeding the minimum threshold length for extraction.",
      some "Start", ["/p1", "/p2"]⟩
  else none

/-- A page whose cleaned text has exactly 50 characters. -/
def fiftyText : String := "01234567890123456789012345678901234567890123456789"

/-- A site whose seed page's text cleans up to exactly 50 characters. -/
def webFifty : String → Option Page := fun u =>
  if u = "https://fifty.com/" then some ⟨fiftyText, some "Fifty", []⟩ else none

example : fiftyText.length = 50 := by decide

/-- C7: for every web, seed URL and bounds, the crawl fetches each
distinct URL at most once — the fetched list is duplicate-free — and
every fetched URL was recorded in the visited set (membership is checked
and the URL recorded before the fetch); the traversal is a total
function, so it terminates on every input, including cyclic link
graphs. -/
theorem crawl_no_duplicate_fetch (web : String → Option Page) (url : String)
    (maxLinks maxDepth : Nat) :
    (scrapeWithBrowser web url maxLinks maxDepth).fetched.Nodup
    ∧ ∀ x ∈ (scrapeWithBrowser web url maxLinks maxDepth).fetched,
        x ∈ (scrapeWithBrowser web url maxLinks maxDepth).visited := by
  have h := scrapePage_tprops web maxLinks maxDepth (maxDepth + 1) url 0 ⟨[], [], []⟩
  exact h.2.2.2.1 ⟨List.nodup_nil, fun x hx => absurd hx (List.not_mem_nil x)⟩

/-- C8: no document emitted by a crawl has depth greater than the depth
limit; and in the spec's scenario — a seed page with a substantial
paragraph and two same-origin links, crawled with maxDepth = 0 — exactly
one document of depth 0 is produced and exactly one fetch (the seed)
happens. -/
theorem crawl_depth_bound :
    (∀ (web : String → Option Page) (url : String) (ml md : Nat),
      ∀ d ∈ (scrapeWithBrowser web url ml md).documents, d.depth ≤ md)
    ∧ scrapeWithBrowser webScenario "https://start.com/" 2 0 =
        ⟨[⟨"Start",
           "Hello World, this is a substantial paragraph of content exceeding the minimum threshold length for extraction.",
           "https://start.com/", 0⟩],
         ["https://start.com/"], ["https://start.com/"]⟩ := by
  constructor
  · intro web url ml md d hd
    have h := scrapePage_tprops web ml md (md + 1) url 0 ⟨[], [], []⟩
    rcases h.2.2.2.2 d hd with h' | ⟨h1, _, _⟩
    · cases h'
    · exact h1
  · decide

theorem crawl_depth_bound_witness :
    (⟨"Start",
      "Hello World, this is a substantial paragraph of content exceeding the minimum threshold length for extraction.",
      "https://start.com/", 0⟩ : CrawlDoc).depth ≤ 0 :=
  crawl_depth_bound.1 webScenario "https://start.com/" 2 0 _ (by decide)

/-- C4 counterexample: from the https seed page, the crawler fetches the
linked URL `http://a.com/x`, whose scheme differs from the page's even
though the netloc agrees — so recursion is not restricted to links whose
scheme and host both match. -/
theorem crawl_cross_scheme_followed :
    (scrapeWithBrowser webCrossScheme "https://a.com/" 2 3).fetched =
      ["https://a.com/", "http://a.com/x"]
    ∧ urlScheme "http://a.com/x" ≠ urlScheme "https://a.com/"
    ∧ urlNetloc "http://a.com/x" = urlNetloc "https://a.com/" := by decide

/-- C4 (amended): the crawler recurses only into links that share the
page's netloc (host); the scheme is not compared, so every URL it ever
fetches is the seed itself or has the seed's netloc. -/
theorem crawl_same_host_only (web : String → Option Page) (url : String)
    (maxLinks maxDepth : Nat) :
    ∀ x ∈ (scrapeWithBrowser web url maxLinks maxDepth).fetched,
      x = url ∨ urlNetloc x = urlNetloc url := by
  have h := scrapePage_tprops web maxLinks maxDepth (maxDepth + 1) url 0 ⟨[], [], []⟩
  intro x hx
  rcases h.2.2.1 x hx with h' | h' | h'
  · exact absurd h' (List.not_mem_nil x)
  · exact Or.inl h'
  · exact Or.inr h'

theorem crawl_same_host_only_witness :
    "http://a.com/x" = "https://a.com/" ∨
      urlNetloc "http://a.com/x" = urlNetloc "https://a.com/" :=
  crawl_same_host_only webCrossScheme "https://a.com/" 2 3 _ (by decide)

/-- C5 counterexample: a page whose cleaned text has exactly 50
characters — not under the 50-character threshold — still yields no
document, because the code requires the length to exceed 50. -/
theorem fifty_char_page_discarded :
    (cleanText fiftyText).length = 50
    ∧ ¬ (cleanText fiftyText).length < 50
    ∧ (scrapeWithBrowser webFifty "https://fifty.com/" 2 3).documents = [] := by decide

/-- C5 (amended): extraction discards a fetched page exactly when its
whitespace-collapsed trimmed text is empty or at most 50 characters
long (it must strictly exceed the threshold), and every emitted
document's body length exceeds 50. -/
theorem extraction_threshold :
    (∀ (web : String → Option Page) (url : String) (ml md : Nat),
      ∀ d ∈ (scrapeWithBrowser web url ml md).documents, 50 < d.content.length)
    ∧ (∀ (web : String → Option Page) (url : String) (ml : Nat) (pg : Page),
        web url = some pg →
        (scrapeWithBrowser web url ml 0).documents =
          if cleanText pg.rawText ≠ "" ∧ (cleanText pg.rawText).length > 50 then
            [⟨pg.title.getD url, cleanText pg.rawText, url, 0⟩]
          else []) := by
  constructor
  · intro web url ml md d hd
    have h := scrapePage_tprops web ml md (md + 1) url 0 ⟨[], [], []⟩
    rcases h.2.2.2.2 d hd with h' | ⟨_, h2, _⟩
    · cases h'
    · exact h2
  · intro web url ml pg hweb
    show (scrapePage web ml 0 1 url 0 ⟨[], [], []⟩).documents = _
    simp only [scrapePage]
    rw [if_neg (by simp), hweb]
    dsimp only
    by_cases hdc : cleanText pg.rawText ≠ "" ∧ (cleanText pg.rawText).length > 50
    · rw [if_pos hdc, if_pos hdc, if_neg (by simp)]
      simp
    · rw [if_neg hdc, if_neg hdc, if_neg (by simp)]

theorem extraction_threshold_witness :
    (scrapeWithBrowser webFifty "https://fifty.com/" 2 0).documents =
      if cleanText fiftyText ≠ "" ∧ (cleanText fiftyText).length > 50 then
        [⟨(some "Fifty").getD "https://fifty.com/", cleanText fiftyText, "https://fifty.com/", 0⟩]
      else [] :=
  extraction_threshold.2 webFifty "https://fifty.com/" 2 ⟨fiftyText, some "Fifty", []⟩ (by decide)


/-- A three-record store (three pages when scrolled with page size 1). -/
def pageStore : List Point :=
  [⟨0, none, some "https://u.com/"⟩, ⟨1, none, some "https://v.com/"⟩,
   ⟨2, none, some "https://u.com/"⟩]

/-- C2: scanning a store whose scroll pages the records by the id
cursor (any positive page size; the code uses 100), the deletion scan of
`remove_url` examines every record in the collection exactly once — the
list of examined records is the collection itself, which is
duplicate-free — with no record skipped at a page boundary and none
examined twice. -/
theorem scan_visits_each_record_once (limit : Nat) (url : String) (s : List Point)
    (fuel : Nat) (hl : 0 < limit) (hs : s.Pairwise (fun a b => a.id < b.id))
    (hfuel : s.length < fuel) :
    removeLoop (qdrantClient limit) url fuel (some s) none 0 [] =
      some (.ok (some (s.filter (fun p => !(eligB none p && matchP url p))),
        s.countP (matchP url), s))
    ∧ s.Nodup := by
  constructor
  · have h := removeLoop_qdrant limit hl url fuel s none 0 [] hs (by rw [elig_none]; exact hfuel)
    rw [elig_none] at h
    simpa using h
  · have hne : s.Pairwise (fun a b : Point => a ≠ b) :=
      hs.imp (fun {a b} hab => fun heq => absurd (congrArg Point.id heq) (Nat.ne_of_lt hab))
    exact hne

theorem scan_visits_each_record_once_witness :
    (removeLoop (qdrantClient 1) "https://u.com/" 4 (some pageStore) none 0 [] =
      some (.ok (some (pageStore.filter
          (fun p => !(eligB none p && matchP "https://u.com/" p))),
        pageStore.countP (matchP "https://u.com/"), pageStore))
    ∧ pageStore.Nodup) :=
  scan_visits_each_record_once 1 "https://u.com/" pageStore 4
    (by decide) (by decide) (by decide)

theorem stuckClient_removeLoop_none (url : String) :
    ∀ fuel (o : Option Unit) (count : Nat) (visited : List Point),
      removeLoop stuckClient url fuel () o count visited = none := by
  intro fuel
  induction fuel with
  | zero => intro o count visited; rfl
  | succ fuel ih =>
    intro o count visited
    simp only [removeLoop, stuckClient]
    simp [matchP, pointUrl]
    exact ih _ _ _

theorem stuckClient_clearLoop_none :
    ∀ fuel (o : Option Unit) (acc : List Nat),
      clearLoop stuckClient fuel () o acc = none := by
  intro fuel
  induction fuel with
  | zero => intro o acc; rfl
  | succ fuel ih =>
    intro o acc
    simp only [clearLoop, stuckClient]
    simp
    exact ih _ _

/-- C3 counterexample: against a store stub whose scroll always returns
one record and a continuation cursor that never advances, neither the
deletion scan nor the clear scan ever terminates — for every fuel the
loop is still running. -/
theorem nonadvancing_cursor_loops_forever :
    (¬ ∃ fuel, (removeLoop stuckClient "https://a.com/" fuel () none 0 []).isSome = true)
    ∧ (¬ ∃ fuel, (clearLoop stuckClient fuel () none []).isSome = true) := by
  constructor
  · rintro ⟨fuel, hf⟩
    rw [stuckClient_removeLoop_none "https://a.com/" fuel none 0 []] at hf
    cases hf
  · rintro ⟨fuel, hf⟩
    rw [stuckClient_clearLoop_none fuel none []] at hf
    cases hf

/-- C3 (amended): both paginated store scans terminate via cursor
exhaustion for every store following the id-ordered cursor semantics
(the modelled Qdrant behaviour, where a non-null cursor always points
past the served page): fuel `size + 1` suffices.  Termination does not
extend to arbitrary store behaviours with a non-advancing cursor. -/
theorem scan_terminates_on_id_cursor_store (limit : Nat) (url : String) (s : List Point)
    (hl : 0 < limit) (hs : s.Pairwise (fun a b => a.id < b.id)) :
    (removeLoop (qdrantClient limit) url (s.length + 1) (some s) none 0 []).isSome = true
    ∧ (clearLoop (qdrantClient limit) (s.length + 1) (some s) none []).isSome = true := by
  have hlen : (elig none s).length < s.length + 1 := by
    rw [elig_none]; exact Nat.lt_succ_self _
  constructor
  · rw [removeLoop_qdrant limit hl url (s.length + 1) s none 0 [] hs hlen]
    rfl
  · rw [clearLoop_qdrant limit hl (s.length + 1) s none [] hs hlen]
    rfl

theorem scan_terminates_on_id_cursor_store_witness :
    ((removeLoop (qdrantClient 1) "https://u.com/" (pageStore.length + 1)
        (some pageStore) none 0 []).isSome = true)
    ∧ ((clearLoop (qdrantClient 1) (pageStore.length + 1) (some pageStore) none []).isSome = true) :=
  scan_terminates_on_id_cursor_store 1 "https://u.com/" pageStore (by decide) (by decide)

/-- C6 counterexample: when the backing collection does not exist, the
store scroll raises and `clear_knowledge_base` fails with HTTP 500 and
an unchanged registry instead of succeeding with deletedCount = 0. -/
theorem clear_missing_collection_errors :
    clearKnowledgeBase (qdrantClient 100) 1 (none : Option (List Point))
        ⟨["https://a.com/"], true⟩ =
      some ⟨.httpError 500 "Error clearing knowledge base: collection does not exist",
        ⟨["https://a.com/"], true⟩, none, 0⟩ := by decide

/-- C6 (amended): on an existing collection, `clear_knowledge_base`
succeeds and reports deletedCount equal to the total number of records,
collecting every record id across all pages and issuing exactly one bulk
delete when any record exists and none when the collection is empty
(deletedCount = 0 then); a nonexistent backing collection instead makes
the scroll raise and the endpoint fail. -/
theorem clear_existing_collection (s : List Point) (reg : Registry) (fuel : Nat)
    (hs : s.Pairwise (fun a b => a.id < b.id)) (hfuel : s.length < fuel) :
    clearKnowledgeBase (qdrantClient 100) fuel (some s) reg =
      some ⟨.ok s.length, ⟨[], false⟩, some [], if s.isEmpty then 0 else 1⟩ := by
  rw [clearKnowledgeBase_qdrant s reg fuel hs hfuel]
  cases hse : s.isEmpty with
  | true =>
    have hs0 : s = [] := List.isEmpty_iff.mp hse
    subst hs0
    rfl
  | false =>
    rw [if_neg (by simp [hse]), filter_own_ids_nil]

theorem clear_existing_collection_witness :
    (clearKnowledgeBase (qdrantClient 100) 4 (some pageStore) ⟨["https://u.com/"], true⟩ =
      some ⟨.ok pageStore.length, ⟨[], false⟩, some [], if pageStore.isEmpty then 0 else 1⟩) :=
  clear_existing_collection pageStore ⟨["https://u.com/"], true⟩ 4 (by decide) (by decide)

/-- C10: whenever `remove_url` returns an HTTP error — in particular
when a store scroll or delete raises mid-scan for a registered URL — the
registry is unchanged: `loaded_urls` and `knowledge_loaded` keep their
prior values, because the registry is mutated only after the deletion
scan completes without error. -/
theorem remove_error_keeps_registry {σ κ : Type} (c : QClient σ κ) (fuel : Nat) (s : σ)
    (reg : Registry) (url : String) (out : RemoveOut σ) (n : Nat) (detail : String)
    (hout : removeUrlEndpoint c fuel s reg url = some out)
    (hres : out.res = .httpError n detail) :
    out.reg = reg := by
  unfold removeUrlEndpoint at hout
  by_cases h1 : pyStripStr url = ""
  · rw [if_pos h1] at hout
    have h := Option.some.inj hout
    rw [← h]
  · rw [if_neg h1] at hout
    by_cases h2 : pyStripStr url ∉ reg.loadedUrls
    · rw [if_pos h2] at hout
      have h := Option.some.inj hout
      rw [← h]
    · rw [if_neg h2] at hout
      cases hloop : removeLoop c (pyStripStr url) fuel s none 0 [] with
      | none =>
        rw [hloop] at hout
        cases hout
      | some r =>
        rw [hloop] at hout
        cases r with
        | error es =>
          obtain ⟨e, s'⟩ := es
          have h := Option.some.inj hout
          rw [← h]
        | ok v =>
          obtain ⟨s', count, visited⟩ := v
          have h := Option.some.inj hout
          rw [← h] at hres
          cases hres

theorem remove_error_keeps_registry_witness :
    (⟨.httpError 500 "Error removing URL: collection does not exist",
      ⟨["https://a.com/"], true⟩, (none : Option (List Point)), []⟩ : RemoveOut (Option (List Point))).reg =
      ⟨["https://a.com/"], true⟩ :=
  remove_error_keeps_registry (qdrantClient 100) 1 none ⟨["https://a.com/"], true⟩
    "https://a.com/" _ 500 "Error removing URL: collection does not exist"
    (by decide) (by decide)


/-- Whether a crawler/fallback outcome is "yields no documents": it raised
or returned an empty list. -/
def emptyOrFailedB : Except Unit (List CrawlDoc) → Bool
  | .error _ => true
  | .ok ds => ds.isEmpty

/-- C9: `initialize_knowledge` tries the browser crawler first and
consults the fallback reader exactly when the crawler yielded no
documents (empty result or exception); it fails with the
no-content-extracted 400 error exactly when both the crawler and the
fallback reader produce zero documents. -/
theorem crawler_first_fallback_second (reg : Registry) (store : List Point) (nextId : Nat)
    (url : String) (br fb : Except Unit (List CrawlDoc))
    (h1 : pyStripStr url ≠ "")
    (h2 : pyStartsWith (pyStripStr url) "http://" ∨ pyStartsWith (pyStripStr url) "https://") :
    ((initializeKnowledge reg store nextId url br fb).triedFallback = true ↔
      emptyOrFailedB br = true)
    ∧ ((initializeKnowledge reg store nextId url br fb).res = .httpError 400 noContentDetail ↔
      (emptyOrFailedB br = true ∧ emptyOrFailedB fb = true)) := by
  unfold initializeKnowledge
  rw [if_neg h1, if_neg (not_not_intro h2)]
  cases br with
  | error u =>
    cases fb with
    | error v =>
      simp [emptyOrFailedB]
    | ok fs =>
      cases fs with
      | nil => simp [emptyOrFailedB]
      | cons f fs' =>
        simp [emptyOrFailedB, noContentDetail]
  | ok ds =>
    cases ds with
    | nil =>
      cases fb with
      | error v => simp [emptyOrFailedB]
      | ok fs =>
        cases fs with
        | nil => simp [emptyOrFailedB]
        | cons f fs' => simp [emptyOrFailedB, noContentDetail]
    | cons d ds' =>
      simp [emptyOrFailedB, noContentDetail]

theorem crawler_first_fallback_second_witness :
    (((initializeKnowledge ⟨[], false⟩ [] 0 "https://a.com/" (.error ()) (.ok [])).triedFallback = true ↔
      emptyOrFailedB (.error ()) = true)
    ∧ ((initializeKnowledge ⟨[], false⟩ [] 0 "https://a.com/" (.error ()) (.ok [])).res =
        .httpError 400 noContentDetail ↔
      (emptyOrFailedB (.error ()) = true ∧ emptyOrFailedB (.ok []) = true))) :=
  crawler_first_fallback_second ⟨[], false⟩ [] 0 "https://a.com/" (.error ()) (.ok [])
    (by decide) (by decide)

/-- The ingestion step of `initialize_knowledge` on the browser path from
a fresh registry and empty store: documents are indexed, the registry
records the (stripped) URL, and one record per document is created. -/
theorem initializeKnowledge_browser_fresh (u : String) (docs : List CrawlDoc)
    (fb : Except Unit (List CrawlDoc)) (hstrip : pyStripStr u = u) (hne : u ≠ "")
    (hvalid : pyStartsWith u "http://" ∨ pyStartsWith u "https://")
    (hdocs_ne : docs ≠ []) :
    initializeKnowledge ⟨[], false⟩ [] 0 u (.ok docs) fb =
      ⟨.ok docs.length "browser" [u], ⟨[u], true⟩, addRecords 0 docs, false⟩ := by
  unfold initializeKnowledge
  rw [hstrip, if_neg hne, if_neg (not_not_intro hvalid)]
  cases docs with
  | nil => exact absurd rfl hdocs_ne
  | cons d ds => simp

/-- C1 (amended): starting from an empty store and registry, when every
ingested document carries the seed URL `u` as its page URL,
`initialize_knowledge(u)` followed by `remove_url(u)` yields a
deletedCount equal to the reported documentCount and leaves `u` absent
from the loaded-URL list (registry cleared). -/
theorem ingest_remove_roundtrip_single_source (docs : List CrawlDoc) (u : String)
    (fb : Except Unit (List CrawlDoc)) (fuel : Nat)
    (hdocs_ne : docs ≠ []) (hdocs_u : ∀ d ∈ docs, d.url = u)
    (hstrip : pyStripStr u = u) (hne : u ≠ "")
    (hvalid : pyStartsWith u "http://" ∨ pyStartsWith u "https://")
    (hfuel : docs.length < fuel) :
    (initializeKnowledge ⟨[], false⟩ [] 0 u (.ok docs) fb).res = .ok docs.length "browser" [u]
    ∧ removeUrlEndpoint (qdrantClient 100) fuel
        (some (initializeKnowledge ⟨[], false⟩ [] 0 u (.ok docs) fb).store)
        (initializeKnowledge ⟨[], false⟩ [] 0 u (.ok docs) fb).reg u =
      some ⟨.ok docs.length [], ⟨[], false⟩, some [], addRecords 0 docs⟩ := by
  rw [initializeKnowledge_browser_fresh u docs fb hstrip hne hvalid hdocs_ne]
  constructor
  · rfl
  · rw [removeUrlEndpoint_qdrant (addRecords 0 docs) ⟨[u], true⟩ u fuel
      (addRecords_pairwise 0 docs) (by rw [addRecords_length]; exact hfuel)
      hstrip hne (List.mem_singleton.mpr rfl)]
    rw [addRecords_filter_nomatch 0 u docs hdocs_u]
    have hcnt : (addRecords 0 docs).countP (matchP u) = docs.length := by
      rw [List.countP_eq_length_filter,
        List.filter_eq_self.mpr (addRecords_match 0 u docs hdocs_u), addRecords_length]
    rw [hcnt]
    have herase : ([u].erase u) = ([] : List String) := by simp
    rw [herase]
    rfl

theorem ingest_remove_roundtrip_single_source_witness :
    ((initializeKnowledge ⟨[], false⟩ [] 0 "https://a.com/" (.ok [⟨"n", "c", "https://a.com/", 0⟩]) (.ok [])).res =
        .ok ([⟨"n", "c", "https://a.com/", 0⟩] : List CrawlDoc).length "browser" ["https://a.com/"]
    ∧ removeUrlEndpoint (qdrantClient 100) 2
        (some (initializeKnowledge ⟨[], false⟩ [] 0 "https://a.com/"
          (.ok [⟨"n", "c", "https://a.com/", 0⟩]) (.ok [])).store)
        (initializeKnowledge ⟨[], false⟩ [] 0 "https://a.com/"
          (.ok [⟨"n", "c", "https://a.com/", 0⟩]) (.ok [])).reg "https://a.com/" =
      some ⟨.ok ([⟨"n", "c", "https://a.com/", 0⟩] : List CrawlDoc).length [], ⟨[], false⟩, some [],
        addRecords 0 [⟨"n", "c", "https://a.com/", 0⟩]⟩) :=
  ingest_remove_roundtrip_single_source [⟨"n", "c", "https://a.com/", 0⟩] "https://a.com/"
    (.ok []) 2 (by decide) (by decide) (by decide) (by decide) (by decide) (by decide)

/-- C1 counterexample: crawling a seed with one same-origin child page
ingests 2 documents (documentCount = 2), but the child document is
recorded under its own page URL, so `remove_url` of the seed deletes
only 1 record: deletedCount = 1 ≠ 2 = documentCount (while the seed URL
does disappear from the loaded-URL list). -/
theorem ingest_remove_roundtrip_counterexample :
    (initializeKnowledge ⟨[], false⟩ [] 0 "https://a.com/"
        (.ok (scrapeWithBrowser webTwoPages "https://a.com/" 2 3).documents) (.ok [])).res =
      .ok 2 "browser" ["https://a.com/"]
    ∧ removeUrlEndpoint (qdrantClient 100) 3
        (some (initializeKnowledge ⟨[], false⟩ [] 0 "https://a.com/"
          (.ok (scrapeWithBrowser webTwoPages "https://a.com/" 2 3).documents) (.ok [])).store)
        (initializeKnowledge ⟨[], false⟩ [] 0 "https://a.com/"
          (.ok (scrapeWithBrowser webTwoPages "https://a.com/" 2 3).documents) (.ok [])).reg
        "https://a.com/" =
      some ⟨.ok 1 [], ⟨[], false⟩, some [⟨1, none, some "https://a.com/b"⟩],
        [⟨0, none, some "https://a.com/"⟩, ⟨1, none, some "https://a.com/b"⟩]⟩
    ∧ (1 : Nat) ≠ 2 := by decide

end WSC
